import Mathlib

/-!
# Shallow embedding of the `kvcache` sharded TTL key-value cache

This file embeds the Go package `kvcache` (sharded in-memory key-value
cache with TTL expiration, approximate-LRU eviction and hit/miss/eviction
metrics) and proves properties of its operations.

Modelling conventions:
* Go strings are byte sequences; keys are modelled as `List Nat`
  (each element standing for one byte, reduced `% 256` inside the hash,
  exactly where the Go code feeds bytes to the FNV-1a hash).
* `int64` nanosecond timestamps (`UnixNano`) are modelled as `Int`.
  Operations take the current time `now : Int` as an explicit argument;
  the several `time.Now()` calls inside one operation are modelled as
  returning this single instant (the model is sequential).
* The Go `map[string]*CacheEntry` is modelled as an association list;
  its iteration order is the list order (Go's order is arbitrary but
  some shard-local order; the list order is one such order).
* `sync.Pool` recycling is observationally irrelevant for map contents
  (a pooled entry is fully overwritten before reuse); the model keeps a
  counter `poolPuts` of `entryPool.Put` calls so that "the entry is
  returned to the allocator" is an observable event.
* The `hits`/`misses`/`evictions` counters are `atomic.Uint64` values
  that are only ever incremented by 1; they are modelled as `Nat`
  (a 2^64 wraparound would need 2^64 operations).
-/

namespace KVDB

/-- A Go string viewed as its byte sequence. -/
abbrev Key := List Nat

/-- Go `CacheEntry`: value, absolute expiration deadline (`UnixNano`), and
last-access time for LRU tracking. -/
structure CacheEntry (V : Type) where
  value : V
  expiration : Int
  lastAccess : Int
deriving Repr, DecidableEq

/-- The contents of a shard's `map[string]*CacheEntry`, as an association
list in iteration order. -/
abbrev Store (V : Type) := List (Key × CacheEntry V)

/-- Go map lookup `store[key]`. -/
def lookupStore {V : Type} : Store V → Key → Option (CacheEntry V)
  | [], _ => none
  | (k, e) :: rest, key => if k = key then some e else lookupStore rest key

/-- Go map write `store[key] = entry`: overwrite in place if the key is
present, otherwise append. -/
def updateStore {V : Type} : Store V → Key → CacheEntry V → Store V
  | [], key, e => [(key, e)]
  | (k, e0) :: rest, key, e =>
      if k = key then (key, e) :: rest else (k, e0) :: updateStore rest key e

/-- Go map `delete(store, key)`: remove the key's binding (the first
occurrence; the keys of a well-formed store are distinct). -/
def eraseStore {V : Type} : Store V → Key → Store V
  | [], _ => []
  | (k, e0) :: rest, key =>
      if k = key then rest else (k, e0) :: eraseStore rest key

/-- One shard: its map and its incrementally maintained live-count
(`size` is a Go `int`). -/
structure Shard (V : Type) where
  store : Store V
  size : Int
deriving Repr, DecidableEq

/-- The cache facade: 256 shards, default TTL (nanoseconds), per-shard
capacity (`0` = unlimited), and the metric counters.  `poolPuts` counts
`entryPool.Put` calls (entries released to the allocator). -/
structure KVCache (V : Type) where
  shards : List (Shard V)
  numShards : Nat
  ttl : Int
  maxCapacity : Int
  hits : Nat
  misses : Nat
  evictions : Nat
  poolPuts : Nat
deriving Repr, DecidableEq

/-- FNV-1a 32-bit hash of a byte sequence (`hash/fnv`, `fnv.New32a`):
start from the offset basis, and for each byte xor it in and multiply by
the FNV prime modulo `2^32`. -/
def fnv32a (key : Key) : Nat :=
  key.foldl (fun h b => ((h ^^^ b % 256) * 16777619) % 4294967296) 2166136261

/-- Go `getShard`: shard index of a key, `fnv32a(key) % numShards`. -/
def getShardIdx {V : Type} (c : KVCache V) (key : Key) : Nat :=
  fnv32a key % c.numShards

/-- The empty shard (also the out-of-range default for `List.getD`;
a constructed cache always indexes in range). -/
def emptyShard (V : Type) : Shard V := { store := [], size := 0 }

/-- The sampling loop of `evictOldest`: walk the store in iteration
order, examining at most `remaining` entries (initially `sampleSize = 5`),
keeping the key of the entry with the smallest `lastAccess` seen so far
(strict `<`, so the first entry attaining the minimum wins).
`okey` starts as the Go zero value `""` (here `[]`) and `otime` as
`math.MaxInt64`. -/
def evictScan {V : Type} : Store V → Nat → Key → Int → Key × Int
  | _, 0, okey, otime => (okey, otime)
  | [], _, okey, otime => (okey, otime)
  | (k, e) :: rest, Nat.succ r, okey, otime =>
      if e.lastAccess < otime then evictScan rest r k e.lastAccess
      else evictScan rest r okey otime

/-- Go `evictOldest` (the random-sampling version): sample up to 5 entries,
and if the selected key is non-empty (`oldestKey != ""`) and still
present, delete it, decrement the live-count, return the entry to the
pool and count one eviction.  Returns the new shard, the number of
evictions recorded (0 or 1) and the number of pool puts (0 or 1). -/
def evictOldest {V : Type} (s : Shard V) : Shard V × Nat × Nat :=
  let scan := evictScan s.store 5 [] (2 ^ 63 - 1)
  let oldestKey := scan.1
  if oldestKey ≠ [] then
    match lookupStore s.store oldestKey with
    | some _ =>
        ({ store := eraseStore s.store oldestKey, size := s.size - 1 }, 1, 1)
    | none => (s, 0, 0)
  else (s, 0, 0)

/-- Go `Set(key, value, ttl...)`: compute the deadline (`now + override` if a
strictly positive override is given, else `now + defaultTTL`), evict if
the shard is at capacity and the key is new, then insert or update the
entry in place, stamping `lastAccess := now`. -/
def setOp {V : Type} (c : KVCache V) (now : Int) (key : Key) (value : V)
    (ttlOv : Option Int) : KVCache V :=
  let i := getShardIdx c key
  let s := c.shards.getD i (emptyShard V)
  let expiration : Int :=
    match ttlOv with
    | some t => if 0 < t then now + t else now + c.ttl
    | none => now + c.ttl
  let step1 : Shard V × Nat × Nat :=
    if 0 < c.maxCapacity ∧ c.maxCapacity ≤ s.size then
      if (lookupStore s.store key).isNone then evictOldest s
      else (s, 0, 0)
    else (s, 0, 0)
  let s1 := step1.1
  let newSize : Int :=
    if (lookupStore s1.store key).isSome then s1.size else s1.size + 1
  let s2 : Shard V :=
    { store := updateStore s1.store key ⟨value, expiration, now⟩,
      size := newSize }
  { c with
      shards := c.shards.set i s2,
      evictions := c.evictions + step1.2.1,
      poolPuts := c.poolPuts + step1.2.2 }

/-- Go `Get(key)`: returns `(value, true)` for a present, unexpired entry
(stamping its `lastAccess`), `(nil, false)` otherwise; an entry observed
expired (`Expiration > 0 && now > Expiration`) is lazily deleted after a
lock upgrade with a re-fetch and re-check.  Result paired with the new
cache state. -/
def getOp {V : Type} (c : KVCache V) (now : Int) (key : Key) :
    (Option V × Bool) × KVCache V :=
  let i := getShardIdx c key
  let s := c.shards.getD i (emptyShard V)
  match lookupStore s.store key with
  | none => ((none, false), { c with misses := c.misses + 1 })
  | some entry =>
      if 0 < entry.expiration ∧ entry.expiration < now then
        -- lock upgrade: re-fetch and re-check before deleting
        let c1 :=
          match lookupStore s.store key with
          | some freshEntry =>
              if 0 < freshEntry.expiration ∧ freshEntry.expiration < now then
                { c with
                    shards := c.shards.set i
                      { store := eraseStore s.store key, size := s.size - 1 },
                    misses := c.misses + 1,
                    poolPuts := c.poolPuts + 1 }
              else { c with misses := c.misses + 1 }
          | none => { c with misses := c.misses + 1 }
        ((none, false), c1)
      else
        ((some entry.value, true),
         { c with
             shards := c.shards.set i
               { store := updateStore s.store key { entry with lastAccess := now },
                 size := s.size },
             hits := c.hits + 1 })

/-- Go `Delete(key)`: remove the binding if present (decrementing the
live-count and returning the entry to the pool); a no-op otherwise. -/
def deleteOp {V : Type} (c : KVCache V) (key : Key) : KVCache V :=
  let i := getShardIdx c key
  let s := c.shards.getD i (emptyShard V)
  match lookupStore s.store key with
  | some _ =>
      { c with
          shards := c.shards.set i
            { store := eraseStore s.store key, size := s.size - 1 },
          poolPuts := c.poolPuts + 1 }
  | none => c

/-- Phase 2 of one `cleanup` sweep of one shard: for each collected key,
re-fetch it and re-check its deadline before deleting.  Returns the shard
and the number of entries released to the pool. -/
def sweepPhase2 {V : Type} (now : Int) : Shard V → Nat → List Key → Shard V × Nat
  | s, puts, [] => (s, puts)
  | s, puts, key :: rest =>
      match lookupStore s.store key with
      | some entry =>
          if 0 < entry.expiration ∧ entry.expiration < now then
            sweepPhase2 now
              { store := eraseStore s.store key, size := s.size - 1 }
              (puts + 1) rest
          else sweepPhase2 now s puts rest
      | none => sweepPhase2 now s puts rest

/-- One `cleanup` sweep of one shard: phase 1 collects (under the read
lock) the keys whose deadline has passed; phase 2 deletes them after
re-checking. -/
def sweepShard {V : Type} (now : Int) (s : Shard V) : Shard V × Nat :=
  let expiredKeys :=
    (s.store.filter fun p => decide (0 < p.2.expiration ∧ p.2.expiration < now)).map
      Prod.fst
  sweepPhase2 now s 0 expiredKeys

/-- One tick of the background `cleanup` goroutine: sweep every shard at
the single instant `now` read at the start of the tick. -/
def cleanupSweep {V : Type} (c : KVCache V) (now : Int) : KVCache V :=
  { c with
      shards := c.shards.map fun s => (sweepShard now s).1,
      poolPuts := c.poolPuts + (c.shards.map fun s => (sweepShard now s).2).sum }

/-- Go `Clear()`: per shard, delete every entry (returning each to the
pool) and zero the live-count. -/
def clearOp {V : Type} (c : KVCache V) : KVCache V :=
  { c with
      shards := c.shards.map fun _ => emptyShard V,
      poolPuts := c.poolPuts + (c.shards.map fun s => s.store.length).sum }

/-- Go `NewKVCacheWithCapacity(defaultTTL, maxCapacityPerShard)`: 256 empty
shards, zeroed counters. -/
def newKVCacheWithCapacity (V : Type) (defaultTTL : Int) (maxCapacityPerShard : Int) :
    KVCache V :=
  { shards := List.replicate 256 (emptyShard V),
    numShards := 256,
    ttl := defaultTTL,
    maxCapacity := maxCapacityPerShard,
    hits := 0, misses := 0, evictions := 0, poolPuts := 0 }

/-- Go `NewKVCache(defaultTTL)` = capacity 0 (unlimited). -/
def newKVCache (V : Type) (defaultTTL : Int) : KVCache V :=
  newKVCacheWithCapacity V defaultTTL 0

/-- Go `Size()`: sum of the shards' live-counts. -/
def sizeOp {V : Type} (c : KVCache V) : Int :=
  (c.shards.map fun s => s.size).sum

/-- Go `CacheStats` snapshot. -/
structure CacheStats where
  hits : Nat
  misses : Nat
  evictions : Nat
  size : Int
deriving Repr, DecidableEq

/-- Go `Stats()`. -/
def statsOp {V : Type} (c : KVCache V) : CacheStats :=
  { hits := c.hits, misses := c.misses, evictions := c.evictions,
    size := sizeOp c }

/-- Go `HitRate()`: `float64(Hits) / float64(Hits+Misses) * 100`, guarded to
`0` when no operation has been counted.  The `float64` arithmetic of the
source is modelled exactly over `ℚ`. -/
def hitRate (s : CacheStats) : ℚ :=
  let total := s.hits + s.misses
  if total = 0 then 0
  else (s.hits : ℚ) / (total : ℚ) * 100

end KVDB

namespace KVDB

variable {V : Type}

/-! ## Association-list lemmas -/

theorem lookup_update_self (s : Store V) (k : Key) (e : CacheEntry V) :
    lookupStore (updateStore s k e) k = some e := by
  induction s with
  | nil => simp [updateStore, lookupStore]
  | cons p rest ih =>
      obtain ⟨k0, e0⟩ := p
      by_cases h : k0 = k
      · simp [updateStore, lookupStore, h]
      · simp [updateStore, lookupStore, h, ih]

theorem lookup_update_ne (s : Store V) (k k' : Key) (e : CacheEntry V)
    (h : k' ≠ k) : lookupStore (updateStore s k e) k' = lookupStore s k' := by
  induction s with
  | nil => simp [updateStore, lookupStore, Ne.symm h]
  | cons p rest ih =>
      obtain ⟨k0, e0⟩ := p
      by_cases hk : k0 = k
      · subst hk
        simp [updateStore, lookupStore, Ne.symm h]
      · simp only [updateStore, if_neg hk, lookupStore]
        by_cases hk' : k0 = k'
        · simp [hk']
        · simp [hk', ih]

theorem length_update_isSome (s : Store V) (k : Key) (e : CacheEntry V)
    (h : (lookupStore s k).isSome) :
    (updateStore s k e).length = s.length := by
  induction s with
  | nil => simp [lookupStore] at h
  | cons p rest ih =>
      obtain ⟨k0, e0⟩ := p
      by_cases hk : k0 = k
      · simp [updateStore, hk]
      · simp only [lookupStore, if_neg hk] at h
        simp [updateStore, if_neg hk, ih h]

theorem length_update_none (s : Store V) (k : Key) (e : CacheEntry V)
    (h : lookupStore s k = none) :
    (updateStore s k e).length = s.length + 1 := by
  induction s with
  | nil => simp [updateStore]
  | cons p rest ih =>
      obtain ⟨k0, e0⟩ := p
      by_cases hk : k0 = k
      · simp [lookupStore, hk] at h
      · simp only [lookupStore, if_neg hk] at h
        simp [updateStore, if_neg hk, ih h]

theorem keys_update_isSome (s : Store V) (k : Key) (e : CacheEntry V)
    (h : (lookupStore s k).isSome) :
    (updateStore s k e).map Prod.fst = s.map Prod.fst := by
  induction s with
  | nil => simp [lookupStore] at h
  | cons p rest ih =>
      obtain ⟨k0, e0⟩ := p
      by_cases hk : k0 = k
      · simp [updateStore, hk]
      · simp only [lookupStore, if_neg hk] at h
        simp [updateStore, if_neg hk, ih h]

theorem keys_update_none (s : Store V) (k : Key) (e : CacheEntry V)
    (h : lookupStore s k = none) :
    (updateStore s k e).map Prod.fst = s.map Prod.fst ++ [k] := by
  induction s with
  | nil => simp [updateStore]
  | cons p rest ih =>
      obtain ⟨k0, e0⟩ := p
      by_cases hk : k0 = k
      · simp [lookupStore, hk] at h
      · simp only [lookupStore, if_neg hk] at h
        simp [updateStore, if_neg hk, ih h]

theorem lookup_none_iff (s : Store V) (k : Key) :
    lookupStore s k = none ↔ k ∉ s.map Prod.fst := by
  induction s with
  | nil => simp [lookupStore]
  | cons p rest ih =>
      obtain ⟨k0, e0⟩ := p
      by_cases hk : k0 = k
      · simp [lookupStore, hk]
      · simp [lookupStore, hk, ih, Ne.symm hk]

theorem nodup_update (s : Store V) (k : Key) (e : CacheEntry V)
    (h : (s.map Prod.fst).Nodup) :
    ((updateStore s k e).map Prod.fst).Nodup := by
  rcases ho : lookupStore s k with _ | e0
  · rw [keys_update_none s k e ho]
    have hk : k ∉ s.map Prod.fst := (lookup_none_iff s k).mp ho
    simp [List.nodup_append, h, hk]
  · have : (lookupStore s k).isSome := by simp [ho]
    rw [keys_update_isSome s k e this]
    exact h

theorem erase_sublist (s : Store V) (k : Key) : (eraseStore s k).Sublist s := by
  induction s with
  | nil => simp [eraseStore]
  | cons p rest ih =>
      obtain ⟨k0, e0⟩ := p
      by_cases hk : k0 = k
      · simp only [eraseStore, if_pos hk]
        exact List.sublist_cons_self _ _
      · simp only [eraseStore, if_neg hk]
        exact List.Sublist.cons₂ _ ih

theorem nodup_erase (s : Store V) (k : Key) (h : (s.map Prod.fst).Nodup) :
    ((eraseStore s k).map Prod.fst).Nodup :=
  ((erase_sublist s k).map Prod.fst).nodup h

theorem lookup_erase_ne (s : Store V) (k k' : Key) (h : k' ≠ k) :
    lookupStore (eraseStore s k) k' = lookupStore s k' := by
  induction s with
  | nil => simp [eraseStore]
  | cons p rest ih =>
      obtain ⟨k0, e0⟩ := p
      by_cases hk : k0 = k
      · subst hk
        simp [eraseStore, lookupStore, Ne.symm h]
      · simp only [eraseStore, if_neg hk, lookupStore]
        by_cases hk' : k0 = k'
        · simp [hk']
        · simp [hk', ih]

theorem erase_of_lookup_none (s : Store V) (k : Key)
    (h : lookupStore s k = none) : eraseStore s k = s := by
  induction s with
  | nil => simp [eraseStore]
  | cons p rest ih =>
      obtain ⟨k0, e0⟩ := p
      by_cases hk : k0 = k
      · simp [lookupStore, hk] at h
      · simp only [lookupStore, if_neg hk] at h
        simp [eraseStore, if_neg hk, ih h]

theorem lookup_erase_self (s : Store V) (k : Key)
    (h : (s.map Prod.fst).Nodup) :
    lookupStore (eraseStore s k) k = none := by
  induction s with
  | nil => simp [eraseStore, lookupStore]
  | cons p rest ih =>
      obtain ⟨k0, e0⟩ := p
      simp only [List.map_cons, List.nodup_cons] at h
      by_cases hk : k0 = k
      · subst hk
        rw [lookup_none_iff]
        simpa [eraseStore] using h.1
      · simp [eraseStore, if_neg hk, lookupStore, hk, ih h.2]

theorem length_erase_isSome (s : Store V) (k : Key)
    (h : (lookupStore s k).isSome) :
    s.length = (eraseStore s k).length + 1 := by
  induction s with
  | nil => simp [lookupStore] at h
  | cons p rest ih =>
      obtain ⟨k0, e0⟩ := p
      by_cases hk : k0 = k
      · simp [eraseStore, hk]
      · simp only [lookupStore, if_neg hk] at h
        simp [eraseStore, if_neg hk, ih h]

theorem mem_of_lookup_some (s : Store V) (k : Key) (e : CacheEntry V)
    (h : lookupStore s k = some e) : (k, e) ∈ s := by
  induction s with
  | nil => simp [lookupStore] at h
  | cons p rest ih =>
      obtain ⟨k0, e0⟩ := p
      by_cases hk : k0 = k
      · subst hk
        have he : e0 = e := by simpa [lookupStore] using h
        subst he
        exact List.mem_cons_self _ _
      · simp only [lookupStore, if_neg hk] at h
        exact List.mem_cons_of_mem _ (ih h)

theorem lookup_of_mem_nodup (s : Store V) (k : Key) (e : CacheEntry V)
    (hnd : (s.map Prod.fst).Nodup) (h : (k, e) ∈ s) :
    lookupStore s k = some e := by
  induction s with
  | nil => simp at h
  | cons p rest ih =>
      obtain ⟨k0, e0⟩ := p
      simp only [List.map_cons, List.nodup_cons] at hnd
      rcases List.mem_cons.mp h with h1 | h1
      · rw [← h1]
        simp [lookupStore]
      · have hk : k0 ≠ k := by
          rintro rfl
          exact hnd.1 (List.mem_map_of_mem Prod.fst h1)
        simp [lookupStore, hk, ih hnd.2 h1]

end KVDB

namespace KVDB

variable {V : Type}

/-! ## Well-formed shards and caches

A shard is well-formed when its map has no duplicate keys and its
live-count equals the number of keys in the map. -/

/-- The per-shard invariant of the spec: distinct keys, and the `size`
counter equals the number of keys present in the map. -/
def WFShard (s : Shard V) : Prop :=
  (s.store.map Prod.fst).Nodup ∧ s.size = (s.store.length : Int)

/-- A cache is well-formed when every shard is. -/
def WF (c : KVCache V) : Prop := ∀ s ∈ c.shards, WFShard s

instance (s : Shard V) : Decidable (WFShard s) := by
  unfold WFShard; infer_instance

instance (c : KVCache V) : Decidable (WF c) := by
  unfold WF; infer_instance

theorem wfShard_empty : WFShard (emptyShard V) := by
  constructor <;> simp [emptyShard]

theorem wf_getD (c : KVCache V) (i : Nat) (h : WF c) :
    WFShard (c.shards.getD i (emptyShard V)) := by
  by_cases hi : i < c.shards.length
  · have : c.shards.getD i (emptyShard V) ∈ c.shards := by
      rw [List.getD_eq_getElem?_getD, List.getElem?_eq_getElem hi]
      exact List.getElem_mem hi
    exact h _ this
  · rw [List.getD_eq_getElem?_getD, List.getElem?_eq_none (by omega)]
    exact wfShard_empty

theorem wfShard_evictOldest (s : Shard V) (h : WFShard s) :
    WFShard (evictOldest s).1 := by
  unfold evictOldest
  dsimp only
  split
  · split
    · rename_i e heq
      refine ⟨nodup_erase _ _ h.1, ?_⟩
      have hlen := length_erase_isSome s.store _ (by rw [heq]; rfl)
      have h2 := h.2
      show s.size - 1 =
        ((eraseStore s.store (evictScan s.store 5 [] (2 ^ 63 - 1)).1).length : Int)
      omega
    · exact h
  · exact h

theorem wfShard_update (s : Shard V) (key : Key) (e : CacheEntry V)
    (h : WFShard s) :
    WFShard { store := updateStore s.store key e,
              size := if (lookupStore s.store key).isSome then s.size
                      else s.size + 1 } := by
  refine ⟨nodup_update _ _ _ h.1, ?_⟩
  rcases ho : lookupStore s.store key with _ | e0
  · have hlen := length_update_none s.store key e ho
    have := h.2
    simp only [ho, Option.isSome_none, Bool.false_eq_true, if_false, hlen]
    push_cast
    omega
  · have hlen := length_update_isSome s.store key e (by simp [ho])
    have := h.2
    simp only [ho, Option.isSome_some, if_true, hlen]
    omega

theorem wf_set_shard (c : KVCache V) (i : Nat) (s2 : Shard V)
    (h : WF c) (h2 : WFShard s2) : WF { c with shards := c.shards.set i s2 } := by
  intro s hs
  rcases List.mem_or_eq_of_mem_set hs with hmem | rfl
  · exact h _ hmem
  · exact h2

theorem wf_setOp (c : KVCache V) (now : Int) (key : Key) (value : V)
    (ttlOv : Option Int) (h : WF c) : WF (setOp c now key value ttlOv) := by
  unfold setOp
  apply wf_set_shard _ _ _ h
  apply wfShard_update
  split
  · split
    · exact wfShard_evictOldest _ (wf_getD c _ h)
    · exact wf_getD c _ h
  · exact wf_getD c _ h

theorem wf_getOp (c : KVCache V) (now : Int) (key : Key) (h : WF c) :
    WF (getOp c now key).2 := by
  unfold getOp
  dsimp only
  split
  · exact h
  · rename_i entry heq
    split
    · dsimp only
      split
      · rename_i fresh heq2
        split
        · apply wf_set_shard _ _ _ h
          have hw := wf_getD c (getShardIdx c key) h
          refine ⟨nodup_erase _ _ hw.1, ?_⟩
          have hlen := length_erase_isSome
            (c.shards.getD (getShardIdx c key) (emptyShard V)).store key
            (by rw [heq2]; rfl)
          have h2 := hw.2
          dsimp only
          omega
        · exact h
      · exact h
    · apply wf_set_shard _ _ _ h
      have hw := wf_getD c (getShardIdx c key) h
      refine ⟨nodup_update _ _ _ hw.1, ?_⟩
      have hlen := length_update_isSome
        (c.shards.getD (getShardIdx c key) (emptyShard V)).store key
        { entry with lastAccess := now } (by rw [heq]; rfl)
      have h2 := hw.2
      dsimp only
      omega

theorem wf_deleteOp (c : KVCache V) (key : Key) (h : WF c) :
    WF (deleteOp c key) := by
  unfold deleteOp
  dsimp only
  split
  · rename_i e heq
    apply wf_set_shard _ _ _ h
    have hw := wf_getD c (getShardIdx c key) h
    refine ⟨nodup_erase _ _ hw.1, ?_⟩
    have hlen := length_erase_isSome
      (c.shards.getD (getShardIdx c key) (emptyShard V)).store key (by rw [heq]; rfl)
    have h2 := hw.2
    dsimp only
    omega
  · exact h

theorem wfShard_sweepPhase2 (now : Int) (keys : List Key) (s : Shard V)
    (puts : Nat) (h : WFShard s) : WFShard (sweepPhase2 now s puts keys).1 := by
  induction keys generalizing s puts with
  | nil => exact h
  | cons k rest ih =>
      unfold sweepPhase2
      rcases ho : lookupStore s.store k with _ | entry
      · exact ih _ _ h
      · simp only []
        split
        · apply ih
          refine ⟨nodup_erase _ _ h.1, ?_⟩
          have hlen := length_erase_isSome s.store k (by simp [ho])
          have := h.2
          simp only []
          omega
        · exact ih _ _ h

theorem wfShard_sweepShard (now : Int) (s : Shard V) (h : WFShard s) :
    WFShard (sweepShard now s).1 :=
  wfShard_sweepPhase2 now _ s 0 h

theorem wf_cleanupSweep (c : KVCache V) (now : Int) (h : WF c) :
    WF (cleanupSweep c now) := by
  intro s hs
  simp only [cleanupSweep, List.mem_map] at hs
  obtain ⟨s0, hs0, rfl⟩ := hs
  exact wfShard_sweepShard now s0 (h s0 hs0)

theorem wf_clearOp (c : KVCache V) (_h : WF c) : WF (clearOp c) := by
  intro s hs
  simp only [clearOp, List.mem_map] at hs
  obtain ⟨s0, hs0, rfl⟩ := hs
  exact wfShard_empty

theorem wf_new (defaultTTL maxCap : Int) :
    WF (newKVCacheWithCapacity V defaultTTL maxCap) := by
  intro s hs
  simp only [newKVCacheWithCapacity, List.mem_replicate] at hs
  rw [hs.2]
  exact wfShard_empty

/-! ## Reachable cache states -/

/-- One public operation, or one tick of the background reaper, at an
arbitrary instant. -/
inductive Step : KVCache V → KVCache V → Prop
  | set (c : KVCache V) (now : Int) (key : Key) (value : V)
      (ttlOv : Option Int) : Step c (setOp c now key value ttlOv)
  | get (c : KVCache V) (now : Int) (key : Key) : Step c (getOp c now key).2
  | del (c : KVCache V) (key : Key) : Step c (deleteOp c key)
  | clear (c : KVCache V) : Step c (clearOp c)
  | sweep (c : KVCache V) (now : Int) : Step c (cleanupSweep c now)

/-- Cache states reachable from a freshly constructed cache by any
sequence of `Set` / `Get` / `Delete` / `Clear` / reaper ticks. -/
inductive Reachable : KVCache V → Prop
  | init (defaultTTL maxCap : Int) :
      Reachable (newKVCacheWithCapacity V defaultTTL maxCap)
  | step {c c' : KVCache V} : Reachable c → Step c c' → Reachable c'

theorem wf_step {c c' : KVCache V} (h : WF c) (hs : Step c c') : WF c' := by
  cases hs with
  | set now key value ttlOv => exact wf_setOp c now key value ttlOv h
  | get now key => exact wf_getOp c now key h
  | del key => exact wf_deleteOp c key h
  | clear => exact wf_clearOp c h
  | sweep now => exact wf_cleanupSweep c now h

theorem wf_reachable {c : KVCache V} (h : Reachable c) : WF c := by
  induction h with
  | init defaultTTL maxCap => exact wf_new defaultTTL maxCap
  | step _ hs ih => exact wf_step ih hs

end KVDB

namespace KVDB

variable {V : Type}

/-! ## Helper lemmas about shard indexing and single operations -/

theorem getD_set_self {α : Type} (l : List α) (i : Nat) (x d : α)
    (h : i < l.length) : (l.set i x).getD i d = x := by
  simp [List.getD_eq_getElem?_getD, List.getElem?_set_self, h]

theorem getD_set_ne {α : Type} (l : List α) (i j : Nat) (x d : α)
    (h : j ≠ i) : (l.set i x).getD j d = l.getD j d := by
  simp [List.getD_eq_getElem?_getD, List.getElem?_set_ne (by omega : i ≠ j)]

theorem getD_map_lt {α β : Type} (f : α → β) (l : List α) (i : Nat)
    (d : β) (d' : α) (h : i < l.length) :
    (l.map f).getD i d = f (l.getD i d') := by
  simp [List.getD_eq_getElem?_getD, List.getElem?_map, List.getElem?_eq_getElem h]

/-- Behaviour of `Get` on a key absent from its shard returns `(nil, false)`. -/
theorem getOp_absent (c : KVCache V) (now : Int) (key : Key)
    (h : lookupStore ((c.shards.getD (getShardIdx c key) (emptyShard V)).store) key
      = none) :
    (getOp c now key).1 = (none, false) := by
  rw [List.getD_eq_getElem?_getD] at h
  simp [getOp, h]

/-- Behaviour of `Get` on a present, unexpired entry returns its value and `true`. -/
theorem getOp_found (c : KVCache V) (now : Int) (key : Key) (e : CacheEntry V)
    (h : lookupStore ((c.shards.getD (getShardIdx c key) (emptyShard V)).store) key
      = some e)
    (hexp : ¬(0 < e.expiration ∧ e.expiration < now)) :
    (getOp c now key).1 = (some e.value, true) := by
  rw [List.getD_eq_getElem?_getD] at h
  simp [getOp, h, hexp]

/-- Behaviour of `Get` on a present entry whose deadline is positive and past returns
`(nil, false)`. -/
theorem getOp_expired (c : KVCache V) (now : Int) (key : Key) (e : CacheEntry V)
    (h : lookupStore ((c.shards.getD (getShardIdx c key) (emptyShard V)).store) key
      = some e)
    (hexp : 0 < e.expiration ∧ e.expiration < now) :
    (getOp c now key).1 = (none, false) := by
  rw [List.getD_eq_getElem?_getD] at h
  simp [getOp, h, hexp]

theorem idx_lt (c : KVCache V) (key : Key)
    (hn : c.numShards = c.shards.length) (h0 : 0 < c.numShards) :
    getShardIdx c key < c.shards.length := by
  have := Nat.mod_lt (fnv32a key) h0
  unfold getShardIdx
  omega

/-- After `Set`, the key's shard holds the freshly written entry: the
given value, the normalized deadline, and `lastAccess = now`. -/
theorem lookup_after_setOp (c : KVCache V) (now : Int) (key : Key) (value : V)
    (ttlOv : Option Int)
    (hn : c.numShards = c.shards.length) (h0 : 0 < c.numShards) :
    lookupStore ((setOp c now key value ttlOv).shards.getD
      (getShardIdx c key) (emptyShard V)).store key =
      some ⟨value,
        match ttlOv with
        | some t => if 0 < t then now + t else now + c.ttl
        | none => now + c.ttl,
        now⟩ := by
  have hi := idx_lt c key hn h0
  simp only [setOp]
  rw [getD_set_self _ _ _ _ hi]
  exact lookup_update_self _ _ _

end KVDB
namespace KVDB

variable {V : Type}

/-! ## Reaper sweep characterization -/

theorem lookup_sweepPhase2_not_mem (now : Int) (keys : List Key) (s : Shard V)
    (puts : Nat) (key : Key) (hk : key ∉ keys) :
    lookupStore (sweepPhase2 now s puts keys).1.store key = lookupStore s.store key := by
  induction keys generalizing s puts with
  | nil => rfl
  | cons k rest ih =>
      have hne : key ≠ k := fun h => hk (h ▸ List.mem_cons_self _ _)
      have hrest : key ∉ rest := fun h => hk (List.mem_cons_of_mem _ h)
      unfold sweepPhase2
      split
      · split
        · rw [ih _ _ hrest]
          exact lookup_erase_ne _ _ _ hne
        · exact ih _ _ hrest
      · exact ih _ _ hrest

theorem lookup_sweepPhase2_none (now : Int) (keys : List Key) (s : Shard V)
    (puts : Nat) (key : Key) (h : lookupStore s.store key = none) :
    lookupStore (sweepPhase2 now s puts keys).1.store key = none := by
  induction keys generalizing s puts with
  | nil => exact h
  | cons k rest ih =>
      unfold sweepPhase2
      split
      · rename_i e heq
        split
        · apply ih
          by_cases hne : key = k
          · subst hne
            rw [heq] at h
            exact absurd h (by simp)
          · rw [lookup_erase_ne _ _ _ hne]
            exact h
        · exact ih _ _ h
      · exact ih _ _ h

theorem lookup_sweepPhase2_expired (now : Int) (keys : List Key) (s : Shard V)
    (puts : Nat) (key : Key) (e : CacheEntry V)
    (hnd : (s.store.map Prod.fst).Nodup)
    (h : lookupStore s.store key = some e)
    (hexp : 0 < e.expiration ∧ e.expiration < now)
    (hmem : key ∈ keys) :
    lookupStore (sweepPhase2 now s puts keys).1.store key = none := by
  induction keys generalizing s puts e with
  | nil => exact absurd hmem (by simp)
  | cons k rest ih =>
      unfold sweepPhase2
      by_cases hk : k = key
      · subst hk
        split
        · rename_i e2 heq2
          rw [h] at heq2
          injection heq2 with he2
          subst he2
          rw [if_pos hexp]
          apply lookup_sweepPhase2_none
          exact lookup_erase_self _ _ hnd
        · rename_i heq2
          rw [h] at heq2
          exact absurd heq2 (by simp)
      · have hmem2 : key ∈ rest := by
          rcases List.mem_cons.mp hmem with h1 | h1
          · exact absurd h1.symm hk
          · exact h1
        split
        · rename_i e2 heq2
          split
          · refine ih _ _ e ?_ ?_ hexp hmem2
            · exact nodup_erase _ _ hnd
            · rw [lookup_erase_ne _ _ _ (fun hh => hk hh.symm)]
              exact h
          · exact ih _ _ e hnd h hexp hmem2
        · exact ih _ _ e hnd h hexp hmem2

theorem lookup_sweepShard (now : Int) (s : Shard V) (key : Key) (e : CacheEntry V)
    (hnd : (s.store.map Prod.fst).Nodup)
    (h : lookupStore s.store key = some e) :
    lookupStore (sweepShard now s).1.store key =
      if 0 < e.expiration ∧ e.expiration < now then none else some e := by
  unfold sweepShard
  by_cases hexp : 0 < e.expiration ∧ e.expiration < now
  · rw [if_pos hexp]
    apply lookup_sweepPhase2_expired now _ s 0 key e hnd h hexp
    refine List.mem_map.mpr ⟨(key, e), ?_, rfl⟩
    rw [List.mem_filter]
    exact ⟨mem_of_lookup_some _ _ _ h, decide_eq_true hexp⟩
  · rw [if_neg hexp]
    rw [lookup_sweepPhase2_not_mem]
    · exact h
    · intro hmem
      simp only [List.mem_map, List.mem_filter] at hmem
      obtain ⟨⟨k2, e2⟩, ⟨hm2, hp2⟩, hfst⟩ := hmem
      simp only at hfst
      have hl2 : lookupStore s.store key = some e2 := by
        rw [← hfst]
        exact lookup_of_mem_nodup s.store k2 e2 hnd hm2
      rw [h] at hl2
      injection hl2 with he
      apply hexp
      rw [he]
      exact of_decide_eq_true hp2

theorem idx_lt_of_lookup_some (c : KVCache V) (i : Nat) (key : Key)
    (e : CacheEntry V)
    (h : lookupStore ((c.shards.getD i (emptyShard V)).store) key = some e) :
    i < c.shards.length := by
  by_contra hle
  rw [List.getD_eq_getElem?_getD, List.getElem?_eq_none (by omega)] at h
  exact absurd h (by simp [emptyShard, lookupStore])

end KVDB

namespace KVDB

variable {V : Type}

/-- Counter bookkeeping of one `Get`: exactly one of hits/misses is
incremented, according to the returned `found` flag. -/
theorem getOp_counters (c : KVCache V) (now : Int) (key : Key) :
    (getOp c now key).2.hits = c.hits + (if (getOp c now key).1.2 then 1 else 0) ∧
    (getOp c now key).2.misses = c.misses + (if (getOp c now key).1.2 then 0 else 1) := by
  unfold getOp
  dsimp only
  split
  · exact ⟨rfl, rfl⟩
  · split
    · dsimp only
      split
      · split
        · exact ⟨rfl, rfl⟩
        · exact ⟨rfl, rfl⟩
      · exact ⟨rfl, rfl⟩
    · exact ⟨rfl, rfl⟩

set_option maxRecDepth 4000 in
/-- C1 (counterexample): the round-trip claim fails for a negative default
TTL: with default TTL -1ns, `Set("k", 42)` at instant 10 followed
immediately by `Get("k")` at the same instant returns `(nil, false)`,
because the stored deadline 9 is positive and already past. -/
theorem set_get_roundtrip_fails_for_negative_ttl :
    (getOp (setOp (newKVCache Nat (-1)) 10 [107] 42 none) 10 [107]).1
      = (none, false) := by decide

/-- C1 (amended): the round trip holds for every cache whose default TTL
is non-negative: for every key `k`, value `v` and optional TTL override,
`Set(k, v)` followed immediately by `Get(k)` returns `(v, true)`. -/
theorem set_get_roundtrip (c : KVCache V) (now : Int) (key : Key) (value : V)
    (ttlOv : Option Int) (hn : c.numShards = c.shards.length)
    (h0 : 0 < c.numShards) (httl : 0 ≤ c.ttl) :
    (getOp (setOp c now key value ttlOv) now key).1 = (some value, true) := by
  rcases ttlOv with _ | t
  · have hlook2 : lookupStore ((setOp c now key value none).shards.getD
        (getShardIdx c key) (emptyShard V)).store key
        = some ⟨value, now + c.ttl, now⟩ :=
      lookup_after_setOp c now key value none hn h0
    refine getOp_found _ _ _ _ hlook2 ?_
    intro hc
    have hc2 : now + c.ttl < now := hc.2
    omega
  · have hlook2 : lookupStore ((setOp c now key value (some t)).shards.getD
        (getShardIdx c key) (emptyShard V)).store key
        = some ⟨value, if 0 < t then now + t else now + c.ttl, now⟩ :=
      lookup_after_setOp c now key value (some t) hn h0
    refine getOp_found _ _ _ _ hlook2 ?_
    intro hc
    have hc2 : (if 0 < t then now + t else now + c.ttl) < now := hc.2
    by_cases ht : 0 < t
    · rw [if_pos ht] at hc2
      omega
    · rw [if_neg ht] at hc2
      omega

set_option maxRecDepth 4000 in
/-- C1 witness: the amended round trip at a concrete instance. -/
theorem set_get_roundtrip_witness :
    (getOp (setOp (newKVCache Nat 900) 10 [107] 42 none) 10 [107]).1
      = (some 42, true) :=
  set_get_roundtrip (newKVCache Nat 900) 10 [107] 42 none
    (by simp [newKVCache, newKVCacheWithCapacity]) (by decide) (by decide)

/-- C5: TTL normalization on `Set`: the stored deadline equals
`now + override` when the override is present and strictly positive, and
`now + defaultTTL` when the override is absent; an override that is ≤ 0
produces a cache state identical to calling `Set` with no override. -/
theorem ttl_normalization (c : KVCache V) (now : Int) (key : Key) (value : V)
    (tpos tnonpos : Int) (hn : c.numShards = c.shards.length)
    (h0 : 0 < c.numShards) (htp : 0 < tpos) (htn : tnonpos ≤ 0) :
    lookupStore ((setOp c now key value (some tpos)).shards.getD
        (getShardIdx c key) (emptyShard V)).store key
      = some ⟨value, now + tpos, now⟩ ∧
    lookupStore ((setOp c now key value none).shards.getD
        (getShardIdx c key) (emptyShard V)).store key
      = some ⟨value, now + c.ttl, now⟩ ∧
    setOp c now key value (some tnonpos) = setOp c now key value none := by
  refine ⟨?_, ?_, ?_⟩
  · simpa [htp] using lookup_after_setOp c now key value (some tpos) hn h0
  · simpa using lookup_after_setOp c now key value none hn h0
  · have hif : (if 0 < tnonpos then now + tnonpos else now + c.ttl) = now + c.ttl :=
      if_neg (by omega)
    simp [setOp, hif]

set_option maxRecDepth 4000 in
/-- C5 witness: TTL normalization at a concrete instance. -/
theorem ttl_normalization_witness :
    lookupStore ((setOp (newKVCache Nat 600) 10 [107] 42 (some 5)).shards.getD
        (getShardIdx (newKVCache Nat 600) [107]) (emptyShard Nat)).store [107]
      = some ⟨42, 10 + 5, 10⟩ ∧
    lookupStore ((setOp (newKVCache Nat 600) 10 [107] 42 none).shards.getD
        (getShardIdx (newKVCache Nat 600) [107]) (emptyShard Nat)).store [107]
      = some ⟨42, 10 + 600, 10⟩ ∧
    setOp (newKVCache Nat 600) 10 [107] 42 (some (-3))
      = setOp (newKVCache Nat 600) 10 [107] 42 none :=
  ttl_normalization (newKVCache Nat 600) 10 [107] 42 5 (-3)
    (by simp [newKVCache, newKVCacheWithCapacity]) (by decide) (by decide) (by decide)

/-- C7: for every key absent from the cache at call time, `Get` returns
`(nil, false)` (no error: the operation is total), and `Delete` returns
the cache state completely unchanged. -/
theorem absent_key_get_delete_noop (c : KVCache V) (now : Int) (key : Key)
    (h : lookupStore ((c.shards.getD (getShardIdx c key) (emptyShard V)).store) key
      = none) :
    (getOp c now key).1 = (none, false) ∧ deleteOp c key = c := by
  refine ⟨getOp_absent c now key h, ?_⟩
  unfold deleteOp
  dsimp only
  split
  · rename_i e heq
    rw [h] at heq
    exact absurd heq (by simp)
  · rfl

set_option maxRecDepth 4000 in
/-- C7 witness: absent-key Get and Delete at a concrete instance. -/
theorem absent_key_get_delete_noop_witness :
    (getOp (newKVCache Nat 300) 7 [107]).1 = (none, false) ∧
      deleteOp (newKVCache Nat 300) [107] = newKVCache Nat 300 :=
  absent_key_get_delete_noop (newKVCache Nat 300) 7 [107] (by decide)

/-- C8: `HitRate()` equals `Hits / (Hits + Misses) * 100` (the source's
float64 arithmetic modelled exactly over ℚ), and equals 0 when
`Hits + Misses = 0` - no division by zero occurs. -/
theorem hitRate_spec (s : CacheStats) :
    hitRate s = if s.hits + s.misses = 0 then 0
      else (s.hits : ℚ) / ((s.hits : ℚ) + (s.misses : ℚ)) * 100 := by
  unfold hitRate
  by_cases h : s.hits + s.misses = 0
  · simp [h]
  · simp only [h, if_false]
    push_cast
    ring

/-- C10: metrics accounting: every `Get` increments exactly one of the
hits and misses counters by exactly one (hits if and only if it returns
found); `Set` and `Delete` never modify hits or misses; `Clear` modifies
none of hits, misses or evictions. -/
theorem metrics_accounting (c : KVCache V) (now : Int) (key : Key) (value : V)
    (ttlOv : Option Int) :
    (getOp c now key).2.hits = c.hits + (if (getOp c now key).1.2 then 1 else 0) ∧
    (getOp c now key).2.misses = c.misses + (if (getOp c now key).1.2 then 0 else 1) ∧
    (setOp c now key value ttlOv).hits = c.hits ∧
    (setOp c now key value ttlOv).misses = c.misses ∧
    (deleteOp c key).hits = c.hits ∧
    (deleteOp c key).misses = c.misses ∧
    (clearOp c).hits = c.hits ∧
    (clearOp c).misses = c.misses ∧
    (clearOp c).evictions = c.evictions := by
  refine ⟨(getOp_counters c now key).1, (getOp_counters c now key).2,
    rfl, rfl, ?_, ?_, rfl, rfl, rfl⟩
  · unfold deleteOp
    dsimp only
    split <;> rfl
  · unfold deleteOp
    dsimp only
    split <;> rfl

end KVDB

namespace KVDB

variable {V : Type}

set_option maxRecDepth 4000 in
/-- C2 (counterexample): an entry with the non-zero (negative) stored
deadline -1, created by `Set` with default TTL -6 at instant 5, is
returned as found by `Get` at instant 100: the code treats only strictly
positive deadlines as expirable, not all non-zero ones as claimed. -/
theorem expired_nonzero_deadline_counterexample :
    lookupStore ((setOp (newKVCache Nat (-6)) 5 [107] 42 none).shards.getD
        (getShardIdx (newKVCache Nat (-6)) [107]) (emptyShard Nat)).store [107]
      = some ⟨42, -1, 5⟩ ∧
    (getOp (setOp (newKVCache Nat (-6)) 5 [107] 42 none) 100 [107]).1
      = (some 42, true) := by decide

/-- C2 (amended): `Get` and the background cleanup treat an entry as
expired iff its stored `Expiration` is strictly positive and the current
time is strictly greater; an entry whose `Expiration` is ≤ 0 (not just
`= 0`) is returned as found regardless of elapsed time and survives the
reaper sweep. -/
theorem expiration_semantics (c : KVCache V) (now : Int) (key : Key)
    (e : CacheEntry V)
    (hnd : ((c.shards.getD (getShardIdx c key) (emptyShard V)).store.map Prod.fst).Nodup)
    (h : lookupStore ((c.shards.getD (getShardIdx c key) (emptyShard V)).store) key
      = some e) :
    ((getOp c now key).1 = (none, false) ↔ (0 < e.expiration ∧ e.expiration < now)) ∧
    ((getOp c now key).1 = (some e.value, true) ↔
      ¬(0 < e.expiration ∧ e.expiration < now)) ∧
    (lookupStore ((cleanupSweep c now).shards.getD
        (getShardIdx c key) (emptyShard V)).store key
      = if 0 < e.expiration ∧ e.expiration < now then none else some e) := by
  have hi := idx_lt_of_lookup_some c (getShardIdx c key) key e h
  refine ⟨⟨?_, getOp_expired c now key e h⟩,
          ⟨?_, getOp_found c now key e h⟩, ?_⟩
  · intro hres
    by_contra hexp
    rw [getOp_found c now key e h hexp] at hres
    exact absurd hres (by simp)
  · intro hres
    intro hexp
    rw [getOp_expired c now key e h hexp] at hres
    exact absurd hres (by simp)
  · have hmap : (cleanupSweep c now).shards.getD (getShardIdx c key) (emptyShard V)
        = (sweepShard now (c.shards.getD (getShardIdx c key) (emptyShard V))).1 := by
      simp only [cleanupSweep]
      exact getD_map_lt _ _ _ _ (emptyShard V) hi
    rw [hmap]
    exact lookup_sweepShard now _ key e hnd h

set_option maxRecDepth 4000 in
/-- C2 witness: expiration semantics at a concrete unexpired instance. -/
theorem expiration_semantics_witness :
    (((getOp (setOp (newKVCache Nat 100) 5 [107] 42 none) 50 [107]).1 = (none, false))
        ↔ ((0:Int) < 105 ∧ (105:Int) < 50)) ∧
    (((getOp (setOp (newKVCache Nat 100) 5 [107] 42 none) 50 [107]).1 = (some 42, true))
        ↔ ¬((0:Int) < 105 ∧ (105:Int) < 50)) ∧
    (lookupStore ((cleanupSweep (setOp (newKVCache Nat 100) 5 [107] 42 none) 50).shards.getD
        (getShardIdx (setOp (newKVCache Nat 100) 5 [107] 42 none) [107]) (emptyShard Nat)).store [107]
      = if (0:Int) < 105 ∧ (105:Int) < 50 then none
        else some ⟨42, 105, 5⟩) :=
  expiration_semantics (setOp (newKVCache Nat 100) 5 [107] 42 none) 50 [107]
    ⟨42, 105, 5⟩ (by decide) (by decide)

/-- C3: eviction trigger condition: with per-shard capacity m > 0, a
`Set` whose key is already present in its shard, or whose shard is below
capacity, leaves the eviction counter and allocator-release counter
unchanged, removes no other key's binding, touches no other shard, and
changes the live-count only by inserting the key itself if new. -/
theorem eviction_only_on_new_key_overflow (c : KVCache V) (now : Int) (key : Key)
    (value : V) (ttlOv : Option Int) (k' : Key) (j : Nat)
    (hn : c.numShards = c.shards.length) (h0 : 0 < c.numShards)
    (_hm : 0 < c.maxCapacity)
    (hsafe : (lookupStore ((c.shards.getD (getShardIdx c key) (emptyShard V)).store) key).isSome
        ∨ (c.shards.getD (getShardIdx c key) (emptyShard V)).size < c.maxCapacity)
    (hk' : k' ≠ key) (hj : j ≠ getShardIdx c key) :
    (setOp c now key value ttlOv).evictions = c.evictions ∧
    (setOp c now key value ttlOv).poolPuts = c.poolPuts ∧
    ((setOp c now key value ttlOv).shards.getD (getShardIdx c key) (emptyShard V)).size
      = (if (lookupStore ((c.shards.getD (getShardIdx c key) (emptyShard V)).store) key).isSome
         then (c.shards.getD (getShardIdx c key) (emptyShard V)).size
         else (c.shards.getD (getShardIdx c key) (emptyShard V)).size + 1) ∧
    lookupStore ((setOp c now key value ttlOv).shards.getD
        (getShardIdx c key) (emptyShard V)).store k'
      = lookupStore ((c.shards.getD (getShardIdx c key) (emptyShard V)).store) k' ∧
    (setOp c now key value ttlOv).shards.getD j (emptyShard V)
      = c.shards.getD j (emptyShard V) := by
  have hi := idx_lt c key hn h0
  have hstep :
      (if 0 < c.maxCapacity ∧
            c.maxCapacity ≤ (c.shards.getD (getShardIdx c key) (emptyShard V)).size then
         if (lookupStore (c.shards.getD (getShardIdx c key) (emptyShard V)).store key).isNone
         then evictOldest (c.shards.getD (getShardIdx c key) (emptyShard V))
         else (c.shards.getD (getShardIdx c key) (emptyShard V), 0, 0)
       else (c.shards.getD (getShardIdx c key) (emptyShard V), 0, 0))
      = (c.shards.getD (getShardIdx c key) (emptyShard V), 0, 0) := by
    rcases hsafe with hp | hsz
    · by_cases hcap : 0 < c.maxCapacity ∧
          c.maxCapacity ≤ (c.shards.getD (getShardIdx c key) (emptyShard V)).size
      · rw [if_pos hcap]
        rcases hlk : lookupStore (c.shards.getD (getShardIdx c key) (emptyShard V)).store key
          with _ | e2
        · rw [hlk] at hp
          exact absurd hp (by simp)
        · simp
      · rw [if_neg hcap]
    · have hcap : ¬(0 < c.maxCapacity ∧
          c.maxCapacity ≤ (c.shards.getD (getShardIdx c key) (emptyShard V)).size) := by
        intro hcc
        omega
      rw [if_neg hcap]
  refine ⟨?_, ?_, ?_, ?_, ?_⟩ <;> simp only [setOp] <;> rw [hstep]
  · rfl
  · rfl
  · rw [getD_set_self _ _ _ _ hi]
  · rw [getD_set_self _ _ _ _ hi]
    exact lookup_update_ne _ _ _ _ hk'
  · rw [getD_set_ne _ _ _ _ _ hj]

set_option maxRecDepth 4000 in
/-- C3 witness: a Set on an already-present key in a full shard evicts
nothing. -/
theorem eviction_only_on_new_key_overflow_witness :
    (setOp (setOp (newKVCacheWithCapacity Nat 100 1) 5 [107] 0 none) 6 [107] 1 none).evictions
      = (setOp (newKVCacheWithCapacity Nat 100 1) 5 [107] 0 none).evictions ∧
    (setOp (setOp (newKVCacheWithCapacity Nat 100 1) 5 [107] 0 none) 6 [107] 1 none).poolPuts
      = (setOp (newKVCacheWithCapacity Nat 100 1) 5 [107] 0 none).poolPuts ∧
    ((setOp (setOp (newKVCacheWithCapacity Nat 100 1) 5 [107] 0 none) 6 [107] 1 none).shards.getD
        (getShardIdx (setOp (newKVCacheWithCapacity Nat 100 1) 5 [107] 0 none) [107])
        (emptyShard Nat)).size
      = (if (lookupStore (((setOp (newKVCacheWithCapacity Nat 100 1) 5 [107] 0 none).shards.getD
            (getShardIdx (setOp (newKVCacheWithCapacity Nat 100 1) 5 [107] 0 none) [107])
            (emptyShard Nat)).store) [107]).isSome
         then ((setOp (newKVCacheWithCapacity Nat 100 1) 5 [107] 0 none).shards.getD
            (getShardIdx (setOp (newKVCacheWithCapacity Nat 100 1) 5 [107] 0 none) [107])
            (emptyShard Nat)).size
         else ((setOp (newKVCacheWithCapacity Nat 100 1) 5 [107] 0 none).shards.getD
            (getShardIdx (setOp (newKVCacheWithCapacity Nat 100 1) 5 [107] 0 none) [107])
            (emptyShard Nat)).size + 1) ∧
    lookupStore (((setOp (setOp (newKVCacheWithCapacity Nat 100 1) 5 [107] 0 none) 6 [107] 1 none).shards.getD
        (getShardIdx (setOp (newKVCacheWithCapacity Nat 100 1) 5 [107] 0 none) [107])
        (emptyShard Nat)).store) [1]
      = lookupStore (((setOp (newKVCacheWithCapacity Nat 100 1) 5 [107] 0 none).shards.getD
        (getShardIdx (setOp (newKVCacheWithCapacity Nat 100 1) 5 [107] 0 none) [107])
        (emptyShard Nat)).store) [1] ∧
    (setOp (setOp (newKVCacheWithCapacity Nat 100 1) 5 [107] 0 none) 6 [107] 1 none).shards.getD
        0 (emptyShard Nat)
      = (setOp (newKVCacheWithCapacity Nat 100 1) 5 [107] 0 none).shards.getD 0 (emptyShard Nat) :=
  eviction_only_on_new_key_overflow
    (setOp (newKVCacheWithCapacity Nat 100 1) 5 [107] 0 none) 6 [107] 1 none [1] 0
    (by simp [newKVCacheWithCapacity, setOp]) (by decide) (by decide)
    (by decide) (by decide) (by decide)

/-- C6: live-count invariant: in every cache state reachable by any
sequence of Set, Get, Delete, Clear and reaper-sweep operations, each
shard's keys are distinct and its size counter equals exactly the number
of keys present in its map. -/
theorem live_count_invariant {c : KVCache V} (h : Reachable c)
    (s : Shard V) (hs : s ∈ c.shards) :
    (s.store.map Prod.fst).Nodup ∧ s.size = (s.store.length : Int) :=
  wf_reachable h s hs

set_option maxRecDepth 4000 in
/-- C6 witness: the invariant at a concrete reachable state. -/
theorem live_count_invariant_witness :
    (([([107], (⟨0, 105, 5⟩ : CacheEntry Nat))] : Store Nat).map Prod.fst).Nodup ∧
      ((1 : Int) = (([([107], (⟨0, 105, 5⟩ : CacheEntry Nat))] : Store Nat).length : Int)) :=
  live_count_invariant
    (Reachable.step (Reachable.init 100 2) (Step.set _ 5 [107] 0 none))
    ⟨[([107], ⟨0, 105, 5⟩)], 1⟩ (by decide)

set_option maxRecDepth 4000 in
/-- C9 (counterexample): `Set` with default TTL -5 at instant 5 stores
the deadline exactly 0 - the never-expires sentinel - so `Get` at the
much later instant 1000 still returns the value: an entry that never
expires IS reachable through the public API, refuting the claim. -/
theorem immortal_entry_reachable_counterexample :
    lookupStore ((setOp (newKVCache Nat (-5)) 5 [107] 42 none).shards.getD
        (getShardIdx (newKVCache Nat (-5)) [107]) (emptyShard Nat)).store [107]
      = some ⟨42, 0, 5⟩ ∧
    (getOp (setOp (newKVCache Nat (-5)) 5 [107] 42 none) 1000 [107]).1
      = (some 42, true) := by decide

/-- C9 (amended): provided the computed deadline `now + defaultTTL` is
still strictly positive, a default TTL ≤ 0 and no positive override make
`Set` store a deadline ≤ now, and every strictly later `Get` reports the
entry expired (not found); when the computed deadline is ≤ 0 the entry
instead never expires (see the counterexample). -/
theorem nonpositive_ttl_expires_when_deadline_positive (c : KVCache V)
    (now now2 : Int) (key : Key) (value : V)
    (hn : c.numShards = c.shards.length) (h0 : 0 < c.numShards)
    (httl : c.ttl ≤ 0) (hpos : 0 < now + c.ttl) (hlater : now < now2) :
    lookupStore ((setOp c now key value none).shards.getD
        (getShardIdx c key) (emptyShard V)).store key
      = some ⟨value, now + c.ttl, now⟩ ∧
    (getOp (setOp c now key value none) now2 key).1 = (none, false) := by
  have hlook2 : lookupStore ((setOp c now key value none).shards.getD
      (getShardIdx c key) (emptyShard V)).store key
      = some ⟨value, now + c.ttl, now⟩ :=
    lookup_after_setOp c now key value none hn h0
  refine ⟨hlook2, getOp_expired _ _ _ _ hlook2 ⟨hpos, ?_⟩⟩
  show now + c.ttl < now2
  omega

set_option maxRecDepth 4000 in
/-- C9 witness: a non-positive TTL with positive deadline expires. -/
theorem nonpositive_ttl_expires_witness :
    lookupStore ((setOp (newKVCache Nat (-2)) 5 [107] 42 none).shards.getD
        (getShardIdx (newKVCache Nat (-2)) [107]) (emptyShard Nat)).store [107]
      = some ⟨42, 5 + -2, 5⟩ ∧
    (getOp (setOp (newKVCache Nat (-2)) 5 [107] 42 none) 6 [107]).1 = (none, false) :=
  nonpositive_ttl_expires_when_deadline_positive (newKVCache Nat (-2)) 5 6 [107] 42
    (by simp [newKVCache, newKVCacheWithCapacity]) (by decide) (by decide)
    (by decide) (by decide)

set_option maxRecDepth 4000 in
/-- C4 (code-bug evaluation): with per-shard capacity 1 and shard 197
holding exactly the empty-string key, inserting the new key "\x82" of
the same shard invokes eviction, whose sampling loop selects the empty
key as the oldest victim; the `oldestKey != ""` guard then mistakes this
victim for "no victim", so nothing is removed, the eviction counter
stays 0, and the shard ends with 2 entries - one over its capacity -
contradicting the specified algorithm, which removes the sampled entry
with the smallest `lastAccess` and increments the counter. -/
theorem evict_empty_string_victim_bug :
    getShardIdx (newKVCacheWithCapacity Nat 3600 1) [] = 197 ∧
    getShardIdx (newKVCacheWithCapacity Nat 3600 1) [130] = 197 ∧
    (newKVCacheWithCapacity Nat 3600 1).maxCapacity = 1 ∧
    (evictScan ((setOp (newKVCacheWithCapacity Nat 3600 1) 5 [] 0 none).shards.getD 197
        (emptyShard Nat)).store 5 [] (2 ^ 63 - 1)).1 = [] ∧
    (setOp (setOp (newKVCacheWithCapacity Nat 3600 1) 5 [] 0 none) 6 [130] 1 none).evictions
      = 0 ∧
    ((setOp (setOp (newKVCacheWithCapacity Nat 3600 1) 5 [] 0 none) 6 [130] 1 none).shards.getD
        197 (emptyShard Nat)).size = 2 ∧
    (lookupStore (((setOp (setOp (newKVCacheWithCapacity Nat 3600 1) 5 [] 0 none) 6 [130] 1
        none).shards.getD 197 (emptyShard Nat)).store) []).isSome = true ∧
    (lookupStore (((setOp (setOp (newKVCacheWithCapacity Nat 3600 1) 5 [] 0 none) 6 [130] 1
        none).shards.getD 197 (emptyShard Nat)).store) [130]).isSome = true := by decide

end KVDB

